import Mathlib

/-!
# Verification of the notion-task-alerts alert state machine

Shallow embedding of `src/notion_task_alerts.py` (the current copy of the
script; `src/notion_sync.py` is an earlier evolution of the same file).

Modelling conventions:
* `datetime` instants become `Int` (seconds); `timedelta(minutes=m)` becomes
  `60 * m`.  The order structure is exactly that of timezone-aware datetimes.
* Python dicts keyed by strings are modelled extensionally by their lookup
  function `String → Option Task` (Python `==` on dicts compares contents,
  not insertion order).
* The Discord dispatch (`send_notification`) returns a `Bool`; its internal
  failure paths (missing webhook URL, non-204 status, raised exception —
  all caught inside the function) are modelled by the injected
  `postResult` outcome.  `check_notifications` ignores the returned value,
  which we model by passing an arbitrary dispatch oracle `Stage → Bool`.
* The `dateutil` parser is an external library, injected as a parameter
  `parseDT : String → Option Int` (`none` = the parse raised, which the
  enclosing `try/except` turns into discarding the record).
-/

namespace NotionTaskAlerts

/-- The `Task` dataclass of `notion_task_alerts.py` (lines 62-76), with
instants as `Int` seconds and the same optional fields and default-false
notification flags. -/
structure Task where
  id : String
  title : String
  start_time : Option Int
  end_time : Option Int
  description : String
  notion_url : String
  prepare_minutes : Option Int := none
  soft_stop_minutes : Option Int := none
  prepare_notified : Bool := false
  start_notified : Bool := false
  soft_stop_notified : Bool := false
  end_notified : Bool := false
deriving Repr, DecidableEq

/-- The four alert stages of `check_notifications` (prepare, start,
soft stop, end). -/
inductive Stage where
  | prepare
  | start
  | soft_stop
  | end_
deriving Repr, DecidableEq

/-- The `*_notified` flag belonging to a stage. -/
def stage_flag : Stage → Task → Bool
  | Stage.prepare, t => t.prepare_notified
  | Stage.start, t => t.start_notified
  | Stage.soft_stop, t => t.soft_stop_notified
  | Stage.end_, t => t.end_notified

/-- `send_notification` (lines 287-379): returns `False` when the webhook
URL is missing, `True` exactly when the POST succeeds with status 204, and
`False` on a non-204 status or a raised exception (the whole body is inside
`try/except`, so the function always returns a `Bool` and never raises). -/
def send_notification (webhook_url : Option String) (postResult : Except Unit Int) : Bool :=
  match webhook_url with
  | none => false
  | some _ =>
    match postResult with
    | Except.ok code => code == 204
    | Except.error _ => false

/-- Block 1 of `check_notifications` (lines 386-397): the prepare alert.
Fires when `start_time` and `prepare_minutes` are set, the flag is unset,
and `now >= start_time - timedelta(minutes=prepare_minutes)`; the dispatch
outcome is recorded but the flag is set regardless of it. -/
def step_prepare (d : Stage → Bool) (now : Int) (t : Task) : Task × Option Bool :=
  match t.start_time, t.prepare_minutes with
  | some st, some pm =>
    if t.prepare_notified = false ∧ st - 60 * pm ≤ now then
      ({ t with prepare_notified := true }, some (d Stage.prepare))
    else (t, none)
  | _, _ => (t, none)

/-- Block 2 of `check_notifications` (lines 399-407): the start alert.
Fires when `start_time` is set, the flag is unset and `now >= start_time`. -/
def step_start (d : Stage → Bool) (now : Int) (t : Task) : Task × Option Bool :=
  match t.start_time with
  | some st =>
    if t.start_notified = false ∧ st ≤ now then
      ({ t with start_notified := true }, some (d Stage.start))
    else (t, none)
  | none => (t, none)

/-- Block 3 of `check_notifications` (lines 409-420): the soft stop alert.
Fires when `end_time` and `soft_stop_minutes` are set, the flag is unset and
`end_time - timedelta(minutes=soft_stop_minutes) <= now < end_time`. -/
def step_soft_stop (d : Stage → Bool) (now : Int) (t : Task) : Task × Option Bool :=
  match t.end_time, t.soft_stop_minutes with
  | some et, some ssm =>
    if t.soft_stop_notified = false ∧ et - 60 * ssm ≤ now ∧ now < et then
      ({ t with soft_stop_notified := true }, some (d Stage.soft_stop))
    else (t, none)
  | _, _ => (t, none)

/-- Block 4 of `check_notifications` (lines 422-430): the end alert.
Fires when `end_time` is set, the flag is unset and `now >= end_time`. -/
def step_end (d : Stage → Bool) (now : Int) (t : Task) : Task × Option Bool :=
  match t.end_time with
  | some et =>
    if t.end_notified = false ∧ et ≤ now then
      ({ t with end_notified := true }, some (d Stage.end_))
    else (t, none)
  | none => (t, none)

/-- One evaluation of `check_notifications` for a single task: the four
stage blocks run in order on the mutated task; the returned list records
each fired stage together with the (ignored) dispatch outcome, in program
order. -/
def check_task (d : Stage → Bool) (now : Int) (t : Task) : Task × List (Stage × Bool) :=
  let r1 := step_prepare d now t
  let r2 := step_start d now r1.1
  let r3 := step_soft_stop d now r2.1
  let r4 := step_end d now r3.1
  (r4.1,
    (r1.2.map (fun b => (Stage.prepare, b))).toList ++
    (r2.2.map (fun b => (Stage.start, b))).toList ++
    (r3.2.map (fun b => (Stage.soft_stop, b))).toList ++
    (r4.2.map (fun b => (Stage.end_, b))).toList)

/-- The stages fired by one evaluation, in order. -/
def fired_stages (d : Stage → Bool) (now : Int) (t : Task) : List Stage :=
  (check_task d now t).2.map Prod.fst

/-- `check_notifications` over the whole active-task map: every stored task
is evaluated and mutated in place (the fired alerts are dispatched and their
outcomes discarded). -/
def check_notifications (d : Stage → Bool) (now : Int)
    (active : String → Option Task) : String → Option Task :=
  fun k => (active k).map (fun t => (check_task d now t).1)

/-- A sequence of evaluation ticks applied to one task, collecting all
stages fired along the way. -/
def run_ticks (d : Stage → Bool) : Task → List Int → Task × List Stage
  | t, [] => (t, [])
  | t, n :: ns =>
    let r := check_task d n t
    let rest := run_ticks d r.1 ns
    (rest.1, r.2.map Prod.fst ++ rest.2)

/-- Copying the four notification flags from an existing entry onto a
freshly fetched task (lines 443-447): every other field keeps the fetched
value. -/
def copy_flags (existing t : Task) : Task :=
  { t with
    prepare_notified := existing.prepare_notified,
    start_notified := existing.start_notified,
    soft_stop_notified := existing.soft_stop_notified,
    end_notified := existing.end_notified }

/-- One iteration of the merge loop of `update_active_tasks` (lines
440-452): look the fetched task's id up in the (evolving) active map, copy
the flags from the existing entry if there is one, then store the task
under its id. -/
def merge_step (active : String → Option Task) (t : Task) : String → Option Task :=
  let merged :=
    match active t.id with
    | some existing => copy_flags existing t
    | none => t
  fun k => if k = t.id then some merged else active k

/-- `update_active_tasks` (lines 432-469) with the fetch result passed in:
fold the merge loop over the fetched batch, then drop every entry whose id
is not among the fetched ids (lines 454-464). -/
def update_active_tasks (active : String → Option Task) (fetched : List Task) :
    String → Option Task :=
  let merged := fetched.foldl merge_step active
  fun k => if fetched.any (fun t => t.id == k) then merged k else none

/-- Modelled from the spec: the reconciliation result described in §4.3 —
the map keyed by the fetched tasks' ids in which a task whose id already
exists in the current active map carries the four flags copied from the
existing entry (other fields take the fetched values), a task with a new id
is kept as fetched, and every id absent from the batch is dropped.  Used
only to compare `update_active_tasks` against the spec's wording. -/
def reconcile_spec (active : String → Option Task) (fetched : List Task) (k : String) :
    Option Task :=
  match fetched.find? (fun t => t.id == k) with
  | none => none
  | some t =>
    match active k with
    | some existing => some (copy_flags existing t)
    | none => some t

/-- One rich-text run of a Notion property (only `plain_text` is read). -/
structure RichText where
  plain_text : String
deriving Repr, DecidableEq

/-- The payload of a Notion date property: the raw `start` string and the
optional raw `end` string. -/
structure DueDate where
  start : String
  end_ : Option String
deriving Repr, DecidableEq

/-- A Notion property value as `_parse_task` distinguishes them via the
`type` tag: a title, a rich-text block, a number (possibly empty), a date
(possibly empty), a status, or any other kind. -/
inductive PropValue where
  | title (runs : List RichText)
  | rich_text (runs : List RichText)
  | number (value : Option Int)
  | date (value : Option DueDate)
  | status (name : String)
  | other
deriving Repr, DecidableEq

/-- A raw Notion page: its id and its property dictionary. -/
structure Page where
  id : String
  properties : List (String × PropValue)
deriving Repr, DecidableEq

/-- Python `properties.get(key)` on the property dictionary. -/
def getProp (props : List (String × PropValue)) (k : String) : Option PropValue :=
  props.lookup k

/-- Python `''.join(text['plain_text'] for text in runs)`. -/
def concatRuns (runs : List RichText) : String :=
  (runs.map RichText.plain_text).foldl (fun a b => a ++ b) ""

/-- Description extraction (lines 228-232): the `Description`/`Notes`
property contributes text only when it exists, is of rich-text kind and its
run list is non-empty (Python truthiness); otherwise the empty string. -/
def extract_description (props : List (String × PropValue)) : String :=
  match (getProp props "Description").orElse (fun _ => getProp props "Notes") with
  | some (PropValue.rich_text runs) => if runs = [] then "" else concatRuns runs
  | _ => ""

/-- Numeric offset extraction (lines 234-262): the value is taken only when
the property exists, is of number kind and its value is non-null; a
present-but-empty number is treated as absent. -/
def extract_offset (props : List (String × PropValue)) (name : String) : Option Int :=
  match getProp props name with
  | some (PropValue.number (some n)) => some n
  | _ => none

/-- The canonical deep link of line 270:
`https://notion.so/` followed by the page id with dashes removed. -/
def notion_url_of (pageId : String) : String :=
  "https://notion.so/" ++ String.mk (pageId.data.filter (fun c => c != '-'))

/-- The single `Task(...)` construction of `_parse_task` (lines 272-281):
id, title, parsed times, extracted description, canonical URL and the two
extracted offsets, with the notification flags at their defaults. -/
def build_task (page : Page) (title : String) (st : Int) (et : Option Int) : Task :=
  { id := page.id,
    title := title,
    start_time := some st,
    end_time := et,
    description := extract_description page.properties,
    notion_url := notion_url_of page.id,
    prepare_minutes := extract_offset page.properties "Prepare Mins",
    soft_stop_minutes := extract_offset page.properties "Soft Stop Mins" }

/-- `_parse_task` (lines 155-285 of `notion_task_alerts.py`).  `parseDT` is
the external `dateutil` parser (`none` = the parse raised; the surrounding
`try/except` then discards the record).  The record is discarded when the
title property is missing, when the due property is missing or empty or not
of date kind (accessing `['date']` on another kind raises, which the
`except` turns into `None`), when the due start string has no `T`
(date-only), or when a date string fails to parse. -/
def _parse_task (parseDT : String → Option Int) (page : Page) : Option Task :=
  let props := page.properties
  match (getProp props "Name").orElse (fun _ => getProp props "Title") with
  | none => none
  | some title_prop =>
    let title :=
      match title_prop with
      | PropValue.title runs => concatRuns runs
      | _ => "Untitled Task"
    match (getProp props "Due").orElse (fun _ => getProp props "Date") with
    | none => none
    | some (PropValue.date none) => none
    | some (PropValue.date (some due)) =>
      if due.start.data.contains 'T' then
        match parseDT due.start with
        | none => none
        | some st =>
          match due.end_ with
          | none => some (build_task page title st none)
          | some rawEnd =>
            match parseDT rawEnd with
            | none => none
            | some et => some (build_task page title st (some et))
      else none
    | some _ => none

/-- `fetch_tasks` (lines 89-153): on a successful query, parse every page
and keep the parsed tasks; on any raised error the `except` branch logs and
returns the empty list. -/
def fetch_tasks (parseDT : String → Option Int) (response : Except Unit (List Page)) :
    List Task :=
  match response with
  | Except.error _ => []
  | Except.ok pages => pages.filterMap (_parse_task parseDT)

/-- The outcome of one outer cycle body of `run` (lines 476-498: the
`update_active_tasks` call plus the ten `check_notifications` ticks):
completes normally, raises a recoverable exception, or is interrupted by
the shutdown signal (`KeyboardInterrupt`). -/
inductive CycleOutcome where
  | ok
  | recoverable
  | interrupt
deriving Repr, DecidableEq

/-- Observable loop events of `run`: an outer cycle ran, the fixed 60-second
backoff sleep happened, or the loop shut down. -/
inductive LoopEvent where
  | cycle
  | backoff
  | shutdown
deriving Repr, DecidableEq

/-- The `run` loop (lines 471-505) over a sequence of cycle outcomes: a
normal cycle is followed by the next iteration; a recoverable exception is
caught by `except Exception`, triggers the fixed backoff sleep and the loop
resumes; `KeyboardInterrupt` is caught by its own handler and breaks the
loop. -/
def run : List CycleOutcome → List LoopEvent
  | [] => []
  | CycleOutcome.ok :: rest => LoopEvent.cycle :: run rest
  | CycleOutcome.recoverable :: rest => LoopEvent.cycle :: LoopEvent.backoff :: run rest
  | CycleOutcome.interrupt :: _ => [LoopEvent.shutdown]

/-- The composite fire condition of the prepare block, read off from
`step_prepare` (proof helper). -/
def prepare_cond (now : Int) (t : Task) : Bool :=
  match t.start_time, t.prepare_minutes with
  | some st, some pm => decide (st - 60 * pm ≤ now)
  | _, _ => false

/-- The composite fire condition of the start block (proof helper). -/
def start_cond (now : Int) (t : Task) : Bool :=
  match t.start_time with
  | some st => decide (st ≤ now)
  | none => false

/-- The composite fire condition of the soft-stop block (proof helper). -/
def soft_stop_cond (now : Int) (t : Task) : Bool :=
  match t.end_time, t.soft_stop_minutes with
  | some et, some ssm => decide (et - 60 * ssm ≤ now ∧ now < et)
  | _, _ => false

/-- The composite fire condition of the end block (proof helper). -/
def end_cond (now : Int) (t : Task) : Bool :=
  match t.end_time with
  | some et => decide (et ≤ now)
  | none => false

/-- The fire condition belonging to a stage (proof helper). -/
def stage_cond : Stage → Int → Task → Bool
  | Stage.prepare => prepare_cond
  | Stage.start => start_cond
  | Stage.soft_stop => soft_stop_cond
  | Stage.end_ => end_cond

/-- Closed form of one entry of the map produced by the merge loop of
`update_active_tasks` (proof helper): with no fetched occurrence of the key
the entry is unchanged; otherwise the fields come from the last occurrence
and the flags from the existing entry when there is one (and from the first
occurrence itself when the key is new). -/
def merged_lookup (active : String → Option Task) (fetched : List Task) (k : String) :
    Option Task :=
  match fetched.filter (fun t => t.id == k) with
  | [] => active k
  | t0 :: rest => some (copy_flags ((active k).getD t0) (rest.getLastD t0))

/-- A dispatch oracle whose every delivery succeeds (concrete data for
closed statements). -/
def dTrue : Stage → Bool := fun _ => true

/-- The scenario task of the spec's walk-through: start at 09:00 (32400
seconds after midnight), prepare offset 15 minutes, no end time, all flags
false. -/
def task8 : Task :=
  { id := "t8", title := "morning", start_time := some 32400, end_time := none,
    description := "", notion_url := "", prepare_minutes := some 15 }

/-- A very short task: start 100 s, end 160 s, both offsets one minute, all
flags false. -/
def task9 : Task :=
  { id := "t9", title := "short", start_time := some 100, end_time := some 160,
    description := "", notion_url := "", prepare_minutes := some 1,
    soft_stop_minutes := some 1 }

/-- A concrete task held in the active set (concrete data for closed
statements). -/
def task_a : Task :=
  { id := "a", title := "held", start_time := some 0, end_time := none,
    description := "", notion_url := "" }

/-- A concrete active map holding exactly `task_a` under id `a`. -/
def active0 : String → Option Task :=
  fun k => if k = "a" then some task_a else none

/-- A datetime parser that always raises (concrete data). -/
def pdt0 : String → Option Int := fun _ => none

/-- A datetime parser that parses every string to 09:00 (concrete data). -/
def pdt1 : String → Option Int := fun _ => some 32400

/-- A raw page whose due start is a bare calendar date (no `T`). -/
def page_dateonly : Page :=
  { id := "p1",
    properties :=
      [("Name", PropValue.title [{ plain_text := "walk" }]),
       ("Due", PropValue.date (some { start := "2025-05-26", end_ := none }))] }

/-- A raw page whose due start carries a time-of-day component. -/
def page_timed : Page :=
  { id := "p2",
    properties :=
      [("Name", PropValue.title [{ plain_text := "meet" }]),
       ("Due", PropValue.date (some { start := "2025-05-26T09:00:00.000+00:00", end_ := none }))] }

/-! ## Closed form of one evaluation -/

/-- Copying flags twice keeps only the outermost source. -/
theorem copy_flags_copy_flags (a b c : Task) :
    copy_flags (copy_flags a b) c = copy_flags a c := by
  simp [copy_flags]

/-- Copying a task's own flags onto itself is the identity. -/
theorem copy_flags_self (t : Task) : copy_flags t t = t := by
  simp [copy_flags]

/-- Closed form of the prepare block. -/
theorem step_prepare_eq (d : Stage → Bool) (now : Int) (t : Task) :
    step_prepare d now t =
      ({ t with prepare_notified := t.prepare_notified || prepare_cond now t },
        if t.prepare_notified = false ∧ prepare_cond now t = true then
          some (d Stage.prepare) else none) := by
  obtain ⟨tid, ttl, st, et, ds, url, pm, ssm, pn, sn, ssn, en⟩ := t
  cases st <;> cases pm <;> cases pn <;>
    simp [step_prepare, prepare_cond] <;> split_ifs <;> simp_all

/-- Closed form of the start block. -/
theorem step_start_eq (d : Stage → Bool) (now : Int) (t : Task) :
    step_start d now t =
      ({ t with start_notified := t.start_notified || start_cond now t },
        if t.start_notified = false ∧ start_cond now t = true then
          some (d Stage.start) else none) := by
  obtain ⟨tid, ttl, st, et, ds, url, pm, ssm, pn, sn, ssn, en⟩ := t
  cases st <;> cases sn <;>
    simp [step_start, start_cond] <;> split_ifs <;> simp_all

/-- Closed form of the soft-stop block. -/
theorem step_soft_stop_eq (d : Stage → Bool) (now : Int) (t : Task) :
    step_soft_stop d now t =
      ({ t with soft_stop_notified := t.soft_stop_notified || soft_stop_cond now t },
        if t.soft_stop_notified = false ∧ soft_stop_cond now t = true then
          some (d Stage.soft_stop) else none) := by
  obtain ⟨tid, ttl, st, et, ds, url, pm, ssm, pn, sn, ssn, en⟩ := t
  cases et <;> cases ssm <;> cases ssn <;>
    simp [step_soft_stop, soft_stop_cond] <;> split_ifs <;> simp_all

/-- Closed form of the end block. -/
theorem step_end_eq (d : Stage → Bool) (now : Int) (t : Task) :
    step_end d now t =
      ({ t with end_notified := t.end_notified || end_cond now t },
        if t.end_notified = false ∧ end_cond now t = true then
          some (d Stage.end_) else none) := by
  obtain ⟨tid, ttl, st, et, ds, url, pm, ssm, pn, sn, ssn, en⟩ := t
  cases et <;> cases en <;>
    simp [step_end, end_cond] <;> split_ifs <;> simp_all

/-- Closed form of `check_task`: the four flags are or-ed with their fire
conditions, and the fired list holds exactly the stages whose flag was
unset and whose condition holds, in program order, each paired with its
dispatch outcome. -/
theorem check_task_eq (d : Stage → Bool) (now : Int) (t : Task) :
    check_task d now t =
      ({ t with
          prepare_notified := t.prepare_notified || prepare_cond now t,
          start_notified := t.start_notified || start_cond now t,
          soft_stop_notified := t.soft_stop_notified || soft_stop_cond now t,
          end_notified := t.end_notified || end_cond now t },
        (if t.prepare_notified = false ∧ prepare_cond now t = true then
          [(Stage.prepare, d Stage.prepare)] else []) ++
        (if t.start_notified = false ∧ start_cond now t = true then
          [(Stage.start, d Stage.start)] else []) ++
        (if t.soft_stop_notified = false ∧ soft_stop_cond now t = true then
          [(Stage.soft_stop, d Stage.soft_stop)] else []) ++
        (if t.end_notified = false ∧ end_cond now t = true then
          [(Stage.end_, d Stage.end_)] else [])) := by
  obtain ⟨tid, ttl, st, et, ds, url, pm, ssm, pn, sn, ssn, en⟩ := t
  simp only [check_task, step_prepare_eq, step_start_eq, step_soft_stop_eq, step_end_eq,
    prepare_cond, start_cond, soft_stop_cond, end_cond]
  split_ifs <;> simp_all

/-- One evaluation updates each stage flag to the or of its old value and
the stage's fire condition. -/
theorem check_task_flag (d : Stage → Bool) (now : Int) (t : Task) (s : Stage) :
    stage_flag s (check_task d now t).1 = (stage_flag s t || stage_cond s now t) := by
  cases s <;> simp [check_task_eq, stage_flag, stage_cond]

/-- One evaluation fires a stage exactly once when its flag is unset and its
condition holds, and zero times otherwise. -/
theorem check_task_count (d : Stage → Bool) (now : Int) (t : Task) (s : Stage) :
    ((check_task d now t).2.map Prod.fst).count s =
      if stage_flag s t = false ∧ stage_cond s now t = true then 1 else 0 := by
  cases s <;>
    simp [check_task_eq, stage_flag, stage_cond, List.count_append,
      List.count_cons, apply_ite (List.map Prod.fst)] <;>
    split_ifs <;> simp_all

/-- C1: once an evaluation sets a stage's flag, no later evaluation with
non-decreasing `now` resets it or dispatches that stage again, and across
any monotone sequence of ticks each stage fires at most once for the task. -/
theorem stage_fires_at_most_once (d : Stage → Bool) (t : Task) (nows : List Int)
    (hmono : nows.Chain' (fun a b => a ≤ b)) (s : Stage) :
    (stage_flag s t = true →
      stage_flag s (run_ticks d t nows).1 = true ∧ (run_ticks d t nows).2.count s = 0) ∧
    (run_ticks d t nows).2.count s ≤ 1 := by
  clear hmono
  induction nows generalizing t with
  | nil => simp [run_ticks]
  | cons n ns ih =>
    have hcnt := check_task_count d n t s
    have hflag := check_task_flag d n t s
    constructor
    · intro h
      have h1 : stage_flag s (check_task d n t).1 = true := by
        rw [hflag, h, Bool.true_or]
      have h0 : ((check_task d n t).2.map Prod.fst).count s = 0 := by
        rw [hcnt]; simp [h]
      have hrest := (ih (check_task d n t).1).1 h1
      simp [run_ticks, List.count_append, h0, hrest.1, hrest.2]
    · by_cases hf : stage_flag s t = true
      · have h1 : stage_flag s (check_task d n t).1 = true := by
          rw [hflag, hf, Bool.true_or]
        have h0 : ((check_task d n t).2.map Prod.fst).count s = 0 := by
          rw [hcnt]; simp [hf]
        have hrest := (ih (check_task d n t).1).1 h1
        simp [run_ticks, List.count_append, h0, hrest.2]
      · by_cases hc : stage_cond s n t = true
        · have h1 : stage_flag s (check_task d n t).1 = true := by
            rw [hflag, hc, Bool.or_true]
          have h0 : ((check_task d n t).2.map Prod.fst).count s = 1 := by
            rw [hcnt]; simp [Bool.eq_false_iff.mpr hf, hc]
          have hrest := (ih (check_task d n t).1).1 h1
          simp [run_ticks, List.count_append, h0, hrest.2]
        · have h0 : ((check_task d n t).2.map Prod.fst).count s = 0 := by
            rw [hcnt]; simp [hc]
          have hrest := (ih (check_task d n t).1).2
          simp only [run_ticks, List.count_append, h0]
          omega

/-- Witness for C1 at a concrete task, tick sequence and stage. -/
theorem stage_fires_at_most_once_witness :
    (run_ticks dTrue task_a [0, 1]).2.count Stage.start ≤ 1 :=
  (stage_fires_at_most_once dTrue task_a [0, 1]
    (List.chain'_pair.mpr (by norm_num)) Stage.start).2

/-- C4: for a task with `end_time` and `soft_stop_minutes` set, whenever the
soft-stop stage fires at instant `now`, the instant satisfies
`end_time - offset <= now < end_time`; in particular the soft-stop alert
always fires strictly before `end_time`. -/
theorem soft_stop_window (d : Stage → Bool) (now : Int) (t : Task) (et off : Int)
    (het : t.end_time = some et) (hoff : t.soft_stop_minutes = some off)
    (hfire : Stage.soft_stop ∈ (check_task d now t).2.map Prod.fst) :
    et - 60 * off ≤ now ∧ now < et := by
  have hcnt := check_task_count d now t Stage.soft_stop
  have hpos : 0 < ((check_task d now t).2.map Prod.fst).count Stage.soft_stop :=
    List.count_pos_iff.mpr hfire
  rw [hcnt] at hpos
  by_cases h : stage_flag Stage.soft_stop t = false ∧ stage_cond Stage.soft_stop now t = true
  · have h2 := h.2
    simp [stage_cond, soft_stop_cond, het, hoff] at h2
    exact ⟨by omega, h2.2⟩
  · simp [h] at hpos

/-- Witness for C4: a concrete firing of the soft-stop stage inside its
window. -/
theorem soft_stop_window_witness :
    160 - 60 * 1 ≤ (130 : Int) ∧ (130 : Int) < 160 :=
  soft_stop_window dTrue 130 task9 160 1 rfl rfl (by decide)

/-- A stage fires only when its flag is unset and its condition holds. -/
theorem fired_mem_flag (d : Stage → Bool) (now : Int) (t : Task) (s : Stage)
    (h : s ∈ (check_task d now t).2.map Prod.fst) :
    stage_flag s t = false ∧ stage_cond s now t = true := by
  have hpos : 0 < ((check_task d now t).2.map Prod.fst).count s :=
    List.count_pos_iff.mpr h
  rw [check_task_count] at hpos
  by_cases hc : stage_flag s t = false ∧ stage_cond s now t = true
  · exact hc
  · simp [hc] at hpos

/-- A stage whose flag is already set never fires. -/
theorem flag_set_not_fired (d : Stage → Bool) (now : Int) (t : Task) (s : Stage)
    (h : stage_flag s t = true) : s ∉ (check_task d now t).2.map Prod.fst := by
  intro hm
  have hf := (fired_mem_flag d now t s hm).1
  rw [h] at hf
  exact absurd hf (by simp)

/-- C6: the evaluator commits a fired stage's flag regardless of the
dispatch outcome: the post-evaluation task is the same whether dispatch
(`send_notification`, failures included) reported success or not, and any
fired stage has its flag set afterwards and is never redelivered on a later
tick. -/
theorem flag_committed_regardless_of_dispatch (webhook_url : Option String)
    (postResult : Except Unit Int) (d' : Stage → Bool) (now now' : Int)
    (t : Task) (s : Stage) (b : Bool) :
    (check_task (fun _ => send_notification webhook_url postResult) now t).1 =
      (check_task dTrue now t).1 ∧
    ((s, b) ∈ (check_task (fun _ => send_notification webhook_url postResult) now t).2 →
      stage_flag s
        (check_task (fun _ => send_notification webhook_url postResult) now t).1 = true ∧
      s ∉ ((check_task d' now'
        (check_task (fun _ => send_notification webhook_url postResult) now t).1).2.map
          Prod.fst)) := by
  constructor
  · simp [check_task_eq]
  · intro hmem
    have hs : s ∈ ((check_task (fun _ => send_notification webhook_url postResult)
        now t).2.map Prod.fst) := List.mem_map_of_mem Prod.fst hmem
    have h1 := fired_mem_flag _ now t s hs
    have hafter : stage_flag s
        ((check_task (fun _ => send_notification webhook_url postResult) now t).1) = true := by
      rw [check_task_flag, h1.2, Bool.or_true]
    exact ⟨hafter, flag_set_not_fired d' now' _ s hafter⟩

/-- Witness for C6: a concrete failed dispatch whose stage flag is set and
which is not redelivered one tick later. -/
theorem flag_committed_regardless_of_dispatch_witness :
    stage_flag Stage.start
      (check_task (fun _ => send_notification none (Except.error ())) 100 task9).1 = true ∧
    Stage.start ∉ ((check_task dTrue 200
      (check_task (fun _ => send_notification none (Except.error ())) 100 task9).1).2.map
        Prod.fst) :=
  (flag_committed_regardless_of_dispatch none (Except.error ()) dTrue 100 200 task9
    Stage.start (send_notification none (Except.error ()))).2 (by decide)

/-! ## Closed form of the reconciler -/

/-- `merged_lookup` reads the current map only at the queried key. -/
theorem merged_lookup_congr (A B : String → Option Task) (F : List Task) (k : String)
    (h : A k = B k) : merged_lookup A F k = merged_lookup B F k := by
  simp only [merged_lookup, h]

/-- One merge iteration changes only the fetched task's key, where it
stores the task with flags copied from the existing entry (or its own when
the key is new). -/
theorem merge_step_apply (A : String → Option Task) (t : Task) (k : String) :
    merge_step A t k =
      if k = t.id then some (copy_flags ((A t.id).getD t) t) else A k := by
  unfold merge_step
  rcases h : A t.id with _ | ex
  · simp [h, copy_flags_self]
  · simp [h]

/-- Closed form of the merge loop of `update_active_tasks`: pointwise, the
folded map agrees with `merged_lookup`. -/
theorem foldl_merge_lookup (F : List Task) : ∀ (A : String → Option Task) (k : String),
    F.foldl merge_step A k = merged_lookup A F k := by
  induction F with
  | nil => intro A k; rfl
  | cons t F ih =>
    intro A k
    show F.foldl merge_step (merge_step A t) k = merged_lookup A (t :: F) k
    rw [ih]
    by_cases h : t.id = k
    · subst h
      have hstep : merge_step A t t.id = some (copy_flags ((A t.id).getD t) t) := by
        rw [merge_step_apply]; simp
      have hfil : (t :: F).filter (fun u => u.id == t.id) =
          t :: F.filter (fun u => u.id == t.id) := by
        simp [List.filter_cons]
      rcases hF : F.filter (fun u => u.id == t.id) with _ | ⟨s0, srest⟩
      · simp only [merged_lookup, hF, hfil, hstep, List.getLastD_nil]
      · simp only [merged_lookup, hF, hfil, hstep, Option.getD_some,
          copy_flags_copy_flags, List.getLastD_cons]
    · have hstep : merge_step A t k = A k := by
        rw [merge_step_apply, if_neg (fun hk => h hk.symm)]
      rw [merged_lookup_congr _ _ _ _ hstep]
      have hfil : (t :: F).filter (fun u => u.id == k) =
          F.filter (fun u => u.id == k) := by
        simp [List.filter_cons, h]
      simp only [merged_lookup, hfil]

/-- `find?` returns the head of the filtered list. -/
theorem find?_eq_head_filter {α : Type} (p : α → Bool) (l : List α) :
    l.find? p = (l.filter p).head? := by
  induction l with
  | nil => rfl
  | cons a l ih =>
    by_cases h : p a = true
    · rw [List.find?_cons_of_pos _ h, List.filter_cons_of_pos h]; rfl
    · rw [List.find?_cons_of_neg _ h, List.filter_cons_of_neg h, ih]

/-- With pairwise distinct ids, at most one fetched task matches a key. -/
theorem filter_id_nodup (F : List Task) (k : String) (hnd : (F.map Task.id).Nodup)
    (t0 : Task) (rest : List Task)
    (hF : F.filter (fun u => u.id == k) = t0 :: rest) : rest = [] := by
  rcases rest with _ | ⟨s0, srest⟩
  · rfl
  · exfalso
    have hnd' : ((F.filter (fun u => u.id == k)).map Task.id).Nodup :=
      List.Nodup.sublist (List.Sublist.map Task.id (List.filter_sublist F)) hnd
    rw [hF] at hnd'
    have ht0 : t0 ∈ F.filter (fun u => u.id == k) := by
      rw [hF]; exact List.mem_cons_self t0 _
    have hs0 : s0 ∈ F.filter (fun u => u.id == k) := by
      rw [hF]; exact List.mem_cons_of_mem t0 (List.mem_cons_self s0 _)
    have ht0k : t0.id = k := beq_iff_eq.mp (List.mem_filter.mp ht0).2
    have hs0k : s0.id = k := beq_iff_eq.mp (List.mem_filter.mp hs0).2
    simp [List.nodup_cons] at hnd'
    exact hnd'.1.1 (ht0k.trans hs0k.symm)

/-- C2: reconciliation produces exactly the map keyed by the fetched ids in
which a task whose id already exists carries the four flags copied from the
existing entry while every other field takes the fetched value, a task with
a new id keeps all four flags false, and every id absent from the batch is
dropped. -/
theorem update_active_tasks_matches_spec (A : String → Option Task) (F : List Task)
    (hnd : (F.map Task.id).Nodup)
    (hff : ∀ t ∈ F, t.prepare_notified = false ∧ t.start_notified = false ∧
      t.soft_stop_notified = false ∧ t.end_notified = false)
    (k : String) :
    update_active_tasks A F k = reconcile_spec A F k ∧
    (A k = none → ∀ u, update_active_tasks A F k = some u →
      u.prepare_notified = false ∧ u.start_notified = false ∧
      u.soft_stop_notified = false ∧ u.end_notified = false) := by
  have key : update_active_tasks A F k = reconcile_spec A F k := by
    by_cases hany : F.any (fun t => t.id == k) = true
    · rcases hF : F.filter (fun u => u.id == k) with _ | ⟨t0, rest⟩
      · rw [List.any_eq_true] at hany
        obtain ⟨t, ht, hid⟩ := hany
        have hmem : t ∈ F.filter (fun u => u.id == k) := List.mem_filter.mpr ⟨ht, hid⟩
        rw [hF] at hmem
        exact absurd hmem (List.not_mem_nil t)
      · have hrest := filter_id_nodup F k hnd t0 rest hF
        subst hrest
        have hfind : F.find? (fun u => u.id == k) = some t0 := by
          rw [find?_eq_head_filter, hF]; rfl
        simp only [update_active_tasks, hany, if_true, foldl_merge_lookup,
          merged_lookup, hF, List.getLastD_nil, reconcile_spec, hfind]
        rcases hA : A k with _ | ex
        · simp [copy_flags_self]
        · simp
    · have hfil : F.filter (fun u => u.id == k) = [] := by
        rw [List.filter_eq_nil_iff]
        intro a ha hak
        exact hany (List.any_eq_true.mpr ⟨a, ha, hak⟩)
      have hfind : F.find? (fun u => u.id == k) = none := by
        rw [find?_eq_head_filter, hfil]; rfl
      simp only [update_active_tasks, reconcile_spec, hfind]
      simp [hany]
  refine ⟨key, ?_⟩
  intro hAk u hu
  rw [key] at hu
  unfold reconcile_spec at hu
  cases hfind : F.find? (fun v => v.id == k) with
  | none =>
    rw [hfind] at hu
    exact absurd hu (by simp)
  | some t0 =>
    rw [hfind, hAk] at hu
    have ht0 : t0 ∈ F := List.mem_of_find?_eq_some hfind
    have hu0 : u = t0 := by
      have := hu
      simpa using this.symm
    rw [hu0]
    exact hff t0 ht0

/-- Witness for C2: a concrete batch with fresh flags and distinct ids. -/
theorem update_active_tasks_matches_spec_witness :
    update_active_tasks active0 [task9] "t9" = reconcile_spec active0 [task9] "t9" :=
  (update_active_tasks_matches_spec active0 [task9] (by decide) (by decide) "t9").1

/-- C3: reconciliation is idempotent for an identical fetched batch:
reconciling the reconciled map again with the same batch leaves every entry
unchanged. -/
theorem update_active_tasks_idempotent (A : String → Option Task) (F : List Task)
    (k : String) :
    update_active_tasks (update_active_tasks A F) F k = update_active_tasks A F k := by
  by_cases hany : F.any (fun t => t.id == k) = true
  · rcases hF : F.filter (fun u => u.id == k) with _ | ⟨t0, rest⟩
    · rw [List.any_eq_true] at hany
      obtain ⟨t, ht, hid⟩ := hany
      have hmem : t ∈ F.filter (fun u => u.id == k) := List.mem_filter.mpr ⟨ht, hid⟩
      rw [hF] at hmem
      exact absurd hmem (List.not_mem_nil t)
    · have hAk : update_active_tasks A F k =
          some (copy_flags ((A k).getD t0) (rest.getLastD t0)) := by
        simp only [update_active_tasks, hany, if_true, foldl_merge_lookup,
          merged_lookup, hF]
      have hL : update_active_tasks (update_active_tasks A F) F k =
          some (copy_flags ((update_active_tasks A F k).getD t0) (rest.getLastD t0)) := by
        simp only [update_active_tasks, hany, if_true, foldl_merge_lookup,
          merged_lookup, hF]
      rw [hL, hAk]
      simp [copy_flags_copy_flags]
  · simp only [update_active_tasks]
    simp [hany]

/-- The last element with default is a member of the cons. -/
theorem getLastD_mem_cons {α : Type} (t0 : α) (rest : List α) :
    rest.getLastD t0 ∈ t0 :: rest := by
  induction rest generalizing t0 with
  | nil => simp [List.getLastD_nil]
  | cons a l ih =>
    rw [List.getLastD_cons]
    exact List.mem_cons_of_mem t0 (ih a)

/-- Every task produced by the normalizer has its start time set. -/
theorem parse_task_start_time_isSome (parseDT : String → Option Int)
    (page : Page) (t : Task) (h : _parse_task parseDT page = some t) :
    t.start_time.isSome = true := by
  simp only [_parse_task] at h
  repeat' split at h
  all_goals first
    | exact Option.noConfusion h
    | (injection h with h2; rw [← h2]; rfl)

/-- Every task in a fetched batch has its start time set. -/
theorem fetch_tasks_start_time_isSome (parseDT : String → Option Int)
    (response : Except Unit (List Page)) (t : Task)
    (h : t ∈ fetch_tasks parseDT response) : t.start_time.isSome = true := by
  unfold fetch_tasks at h
  rcases response with _ | pages
  · exact absurd h (List.not_mem_nil t)
  · obtain ⟨p, _, hp⟩ := List.mem_filterMap.mp h
    exact parse_task_start_time_isSome parseDT p t hp

/-- Reconciliation preserves the start-time invariant when every fetched
task satisfies it. -/
theorem update_preserves_start_time (A : String → Option Task) (F : List Task)
    (hA : ∀ k t, A k = some t → t.start_time.isSome = true)
    (hF : ∀ t ∈ F, t.start_time.isSome = true)
    (k : String) (t : Task) (h : update_active_tasks A F k = some t) :
    t.start_time.isSome = true := by
  simp only [update_active_tasks] at h
  by_cases hany : F.any (fun u => u.id == k) = true
  · rw [if_pos hany, foldl_merge_lookup] at h
    unfold merged_lookup at h
    rcases hfil : F.filter (fun u => u.id == k) with _ | ⟨t0, rest⟩
    · rw [hfil] at h
      exact hA k t h
    · rw [hfil] at h
      have hlast : rest.getLastD t0 ∈ F :=
        List.mem_of_mem_filter (hfil ▸ getLastD_mem_cons t0 rest)
      have ht : t = copy_flags ((A k).getD t0) (rest.getLastD t0) := by
        simpa using h.symm
      rw [ht]
      simpa [copy_flags] using hF _ hlast
  · rw [if_neg hany] at h
    exact absurd h (by simp)

/-- C5: a raw record whose due-date start value lacks a time-of-day
component (no `T` in the start string) is discarded by the normalizer, and
more generally no task with an unset start time ever enters the active set:
parsed tasks always carry a start time, and reconciling any start-time-valid
active map with any fetch result (including a failed fetch) keeps every
entry's start time set. -/
theorem date_only_never_enters_active_set (parseDT : String → Option Int) :
    (∀ (page : Page) (due : DueDate),
      (getProp page.properties "Due").orElse (fun _ => getProp page.properties "Date") =
        some (PropValue.date (some due)) →
      due.start.data.contains 'T' = false →
      _parse_task parseDT page = none) ∧
    (∀ (page : Page) (t : Task),
      _parse_task parseDT page = some t → t.start_time.isSome = true) ∧
    (∀ (A : String → Option Task) (response : Except Unit (List Page)),
      (∀ k t, A k = some t → t.start_time.isSome = true) →
      ∀ k t, update_active_tasks A (fetch_tasks parseDT response) k = some t →
        t.start_time.isSome = true) := by
  refine ⟨?_, parse_task_start_time_isSome parseDT, ?_⟩
  · intro page due hdue hT
    unfold _parse_task
    rcases hname : (getProp page.properties "Name").orElse
        (fun _ => getProp page.properties "Title") with _ | tp
    · simp only [hname]
    · simp only [hname, hdue]
      rw [if_neg (by simp only [hT]; exact Bool.false_ne_true)]
  · intro A response hA k t h
    exact update_preserves_start_time A (fetch_tasks parseDT response) hA
      (fun u hu => fetch_tasks_start_time_isSome parseDT response u hu) k t h

/-- Witness for C5: the concrete date-only page is discarded. -/
theorem date_only_never_enters_active_set_witness :
    _parse_task pdt1 page_dateonly = none :=
  (date_only_never_enters_active_set pdt1).1 page_dateonly
    { start := "2025-05-26", end_ := none } (by decide) (by decide)

/-- C7 counterexample: with a concrete non-empty active map, a failed fetch
(which returns the empty batch) does not leave the active set unchanged —
reconciliation against the empty batch evicts the held task. -/
theorem fetch_failure_not_unchanged_counterexample :
    active0 "a" = some task_a ∧
    update_active_tasks active0 (fetch_tasks pdt1 (Except.error ())) "a" = none := by
  exact ⟨rfl, rfl⟩

/-- C7 amended: when the upstream fetch fails, the failure is logged inside
`fetch_tasks`, which returns the empty batch, and the outer cycle completes
normally so the loop continues; the refresh pass then reconciles against
the empty batch, which evicts every currently-active task (the active set
becomes empty) rather than leaving it unchanged. -/
theorem fetch_failure_empties_active_set (parseDT : String → Option Int) (e : Unit)
    (A : String → Option Task) (k : String) :
    fetch_tasks parseDT (Except.error e) = [] ∧
    update_active_tasks A (fetch_tasks parseDT (Except.error e)) k = none ∧
    (∀ rest, run (CycleOutcome.ok :: rest) = LoopEvent.cycle :: run rest) := by
  exact ⟨rfl, rfl, fun rest => rfl⟩

/-- C8 counterexample: for the scenario task (start 09:00 = 32400 s,
prepare offset 15 min, flags false) the first evaluation at 08:50 (31800 s)
does not fire nothing — it fires the prepare stage, since 08:50 is already
past 08:45. -/
theorem prepare_scenario_counterexample :
    (check_task dTrue 31800 task8).2.map Prod.fst = [Stage.prepare] := by decide

/-- C8 amended: for the scenario task, evaluation at 08:40 (31200 s) fires
nothing and leaves the task unchanged; evaluation at 08:45 (31500 s) fires
the prepare stage; and a subsequent evaluation at 09:00 (32400 s) fires the
start stage while prepare, already fired, is not re-fired. -/
theorem prepare_scenario_amended :
    (check_task dTrue 31200 task8).2 = [] ∧
    (check_task dTrue 31200 task8).1 = task8 ∧
    (check_task dTrue 31500 task8).2.map Prod.fst = [Stage.prepare] ∧
    (check_task dTrue 32400 (check_task dTrue 31500 task8).1).2.map Prod.fst =
      [Stage.start] := by
  refine ⟨?_, ?_, ?_, ?_⟩ <;> decide

/-- C9 counterexample: the soft-stop stage fires only when `now < end_time`
while the end stage fires only when `end_time <= now`, so no single
evaluation call ever fires both — hence no task and instant make all four
stages fire in the same tick. -/
theorem all_four_same_tick_counterexample :
    ¬ ∃ (d : Stage → Bool) (now : Int) (t : Task),
      Stage.prepare ∈ (check_task d now t).2.map Prod.fst ∧
      Stage.start ∈ (check_task d now t).2.map Prod.fst ∧
      Stage.soft_stop ∈ (check_task d now t).2.map Prod.fst ∧
      Stage.end_ ∈ (check_task d now t).2.map Prod.fst := by
  rintro ⟨d, now, t, -, -, hss, hend⟩
  have h1 := (fired_mem_flag d now t Stage.soft_stop hss).2
  have h2 := (fired_mem_flag d now t Stage.end_ hend).2
  simp only [stage_cond, soft_stop_cond, end_cond] at h1 h2
  rcases het : t.end_time with _ | et
  · rw [het] at h2
    exact absurd h2 (by simp)
  · rcases hssm : t.soft_stop_minutes with _ | ssm
    · rw [het, hssm] at h1
      exact absurd h1 (by simp)
    · rw [het, hssm] at h1
      rw [het] at h2
      simp at h1 h2
      omega

/-- C9 amended: all four stages are evaluated independently in one call and
up to three can fire in the same tick for a very short task — prepare,
start and soft-stop together at the task's start, or prepare, start and end
together once the end time has passed — but soft-stop and end are mutually
exclusive within a single evaluation. -/
theorem three_stages_same_tick_amended :
    (check_task dTrue 100 task9).2.map Prod.fst =
      [Stage.prepare, Stage.start, Stage.soft_stop] ∧
    (check_task dTrue 160 task9).2.map Prod.fst =
      [Stage.prepare, Stage.start, Stage.end_] := by
  constructor <;> decide

/-- C10: the main loop catches any recoverable error of an outer cycle at
top level, backs off for the fixed delay and resumes, so a single failure
degrades at most one outer cycle; it shuts down exactly when the explicit
interrupt arrives and never exits on a recoverable error. -/
theorem run_crash_isolation (os : List CycleOutcome) :
    (LoopEvent.shutdown ∈ run os ↔ CycleOutcome.interrupt ∈ os) ∧
    (∀ rest, run (CycleOutcome.recoverable :: rest) =
      LoopEvent.cycle :: LoopEvent.backoff :: run rest) ∧
    (CycleOutcome.interrupt ∉ os →
      (run os).count LoopEvent.backoff = os.count CycleOutcome.recoverable ∧
      (run os).count LoopEvent.cycle = os.length) := by
  refine ⟨?_, fun rest => rfl, ?_⟩
  · induction os with
    | nil => simp [run]
    | cons o rest ih =>
      cases o <;> simp [run, ih]
  · induction os with
    | nil => intro h; simp [run]
    | cons o rest ih =>
      intro hni
      cases o
      · have h' := ih (fun h => hni (List.mem_cons_of_mem _ h))
        simp [run, List.count_cons, h'.1, h'.2]
      · have h' := ih (fun h => hni (List.mem_cons_of_mem _ h))
        simp [run, List.count_cons, h'.1, h'.2]
      · exact absurd (List.mem_cons_self _ _) hni

/-- Witness for C10 at a concrete outcome sequence without interrupts. -/
theorem run_crash_isolation_witness :
    (run [CycleOutcome.ok, CycleOutcome.recoverable]).count LoopEvent.backoff =
      [CycleOutcome.ok, CycleOutcome.recoverable].count CycleOutcome.recoverable ∧
    (run [CycleOutcome.ok, CycleOutcome.recoverable]).count LoopEvent.cycle = 2 := by
  have h := (run_crash_isolation [CycleOutcome.ok, CycleOutcome.recoverable]).2.2 (by decide)
  exact ⟨h.1, h.2⟩

end NotionTaskAlerts
